import Mathlib

/-!
# Verification of the `x-pre-json` web component (src/xprejson.js)

A shallow embedding of the pure data manipulation performed by the `xPreJSON`
custom element: JSON values, `JSON.stringify` / `JSON.parse` (modelled over an
integer number domain), the change-propagation chain (`handleChildUpdate`),
the edit-session protocol attached to primitive leaves, the drag-reorder
controller for arrays of primitives, the expand/collapse toggle, primitive
rendering (URL / truncation branches), and the mount protocol
(`connectedCallback` / `render`).

Modelling conventions:
* JS `undefined` is `Option.none`; an initialized value is `some v`.
* JSON numbers are modelled as integers (`Int`). None of the verified claims
  involves fractional or exponent-form numbers, so the embedded parser accepts
  only integer literals and rejects fraction/exponent suffixes.
* Strings are Lean `String`s; `String.length`/`take` stand for the JS
  code-unit operations (they agree on the ASCII inputs used by the claims).
-/

namespace XPreJson

/-- JSON values as owned by a tree node (`this.input` in the source).
Objects are insertion-ordered association lists, as in JS. Numbers are
modelled as integers (see module header). -/
inductive JsonValue where
  | null
  | bool (b : Bool)
  | num (n : Int)
  | str (s : String)
  | arr (elems : List JsonValue)
  | obj (members : List (String × JsonValue))

/-- `JSON.stringify` escaping of a single character inside a string literal. -/
def escapeChar (c : Char) : String :=
  if c = '"' then "\\\""
  else if c = '\\' then "\\\\"
  else if c = '\n' then "\\n"
  else if c = '\r' then "\\r"
  else if c = '\t' then "\\t"
  else if c = Char.ofNat 8 then "\\b"
  else if c = Char.ofNat 12 then "\\f"
  else if c.toNat < 32 then
    "\\u00" ++ String.mk [(Nat.digitChar (c.toNat / 16)), (Nat.digitChar (c.toNat % 16))]
  else String.singleton c

/-- Body of a `JSON.stringify`d string literal. -/
def escapeString (s : String) : String :=
  String.join (s.data.map escapeChar)

/-- Digits to a natural number (base 10). -/
def digitsToNat (acc : Nat) : List Char → Nat
  | [] => acc
  | c :: rest => digitsToNat (acc * 10 + (c.toNat - '0'.toNat)) rest

/-- Decimal digit characters of `n`, most significant first (fuel-indexed;
any fuel above `n` gives the digits). -/
def natDigitsFuel : Nat → Nat → List Char
  | 0, _ => []
  | fuel + 1, n =>
      if n < 10 then [Nat.digitChar n]
      else natDigitsFuel fuel (n / 10) ++ [Nat.digitChar (n % 10)]

/-- Decimal digit characters of `n`, most significant first. -/
def natDigits (n : Nat) : List Char := natDigitsFuel (n + 1) n

/-- JS `String(n)` for a natural number. -/
def jsStringOfNat (n : Nat) : String := String.mk (natDigits n)

/-- JS `String(n)` for an integer (all numbers reaching it in this component
are integral). -/
def jsStringOfInt (n : Int) : String :=
  if n < 0 then String.mk ('-' :: natDigits (-n).toNat) else jsStringOfNat n.toNat

mutual

/-- `JSON.stringify` of a value: the canonical textual form the component
stores into `textContent` after every update. -/
def jsonStringify : JsonValue → String
  | .null => "null"
  | .bool b => cond b "true" "false"
  | .num n => jsStringOfInt n
  | .str s => "\"" ++ escapeString s ++ "\""
  | .arr xs => "[" ++ stringifyElems xs ++ "]"
  | .obj kvs => "\x7b" ++ stringifyMembers kvs ++ "\x7d"

/-- Comma-joined serialization of array elements. -/
def stringifyElems : List JsonValue → String
  | [] => ""
  | [x] => jsonStringify x
  | x :: y :: rest => jsonStringify x ++ "," ++ stringifyElems (y :: rest)

/-- Comma-joined serialization of object members. -/
def stringifyMembers : List (String × JsonValue) → String
  | [] => ""
  | [(k, v)] => "\"" ++ escapeString k ++ "\":" ++ jsonStringify v
  | (k, v) :: m :: rest =>
      "\"" ++ escapeString k ++ "\":" ++ jsonStringify v ++ "," ++ stringifyMembers (m :: rest)

end

/-- JSON whitespace skipping. -/
def skipWs (cs : List Char) : List Char :=
  cs.dropWhile (fun c => c = ' ' ∨ c = '\t' ∨ c = '\n' ∨ c = '\r')

/-- Hex digit value, for `\uXXXX` escapes. -/
def hexVal (c : Char) : Option Nat :=
  if '0' ≤ c ∧ c ≤ '9' then some (c.toNat - '0'.toNat)
  else if 'a' ≤ c ∧ c ≤ 'f' then some (c.toNat - 'a'.toNat + 10)
  else if 'A' ≤ c ∧ c ≤ 'F' then some (c.toNat - 'A'.toNat + 10)
  else none

/-- Parse the remainder of a JSON string literal (after the opening quote). -/
def parseStringBody : List Char → Option (List Char × List Char)
  | [] => none
  | '"' :: rest => some ([], rest)
  | '\\' :: 'u' :: a :: b :: c :: d :: rest =>
      match hexVal a, hexVal b, hexVal c, hexVal d with
      | some x, some y, some z, some w =>
          (parseStringBody rest).map
            (fun r => (Char.ofNat (((x * 16 + y) * 16 + z) * 16 + w) :: r.1, r.2))
      | _, _, _, _ => none
  | '\\' :: e :: rest =>
      match
        (if e = '"' then some '"'
         else if e = '\\' then some '\\'
         else if e = '/' then some '/'
         else if e = 'b' then some (Char.ofNat 8)
         else if e = 'f' then some (Char.ofNat 12)
         else if e = 'n' then some '\n'
         else if e = 'r' then some '\r'
         else if e = 't' then some '\t'
         else none : Option Char)
      with
      | some c => (parseStringBody rest).map (fun r => (c :: r.1, r.2))
      | none => none
  | c :: rest =>
      if c.toNat < 32 then none
      else (parseStringBody rest).map (fun r => (c :: r.1, r.2))

/-- Parse a JSON number literal. Integer grammar only (no leading zeros, as in
JSON); a fraction or exponent suffix is rejected — see module header. -/
def parseNumber (cs : List Char) : Option (Int × List Char) :=
  let (sign, cs') : Int × List Char :=
    match cs with
    | '-' :: rest => (-1, rest)
    | _ => (1, cs)
  match cs' with
  | '0' :: rest =>
      match rest with
      | c :: _ =>
          if c.isDigit ∨ c = '.' ∨ c = 'e' ∨ c = 'E' then none
          else some (0, rest)
      | [] => some (0, [])
  | c :: _ =>
      if c.isDigit then
        let ds := cs'.takeWhile Char.isDigit
        let rest := cs'.dropWhile Char.isDigit
        match rest with
        | r :: _ => if r = '.' ∨ r = 'e' ∨ r = 'E' then none
                    else some (sign * (digitsToNat 0 ds : Int), rest)
        | [] => some (sign * (digitsToNat 0 ds : Int), [])
      else none
  | [] => none

/-- JS property assignment on an ordered object: replace the value at the
first occurrence of the key in place, or append a new member. -/
def setProp : List (String × JsonValue) → String → JsonValue → List (String × JsonValue)
  | [], k, v => [(k, v)]
  | (k', v') :: rest, k, v =>
      if k' = k then (k', v) :: rest else (k', v') :: setProp rest k v

/-- JS object construction from a member sequence: assignments applied left to
right, so a duplicated key keeps its first position but its last value. -/
def objFromEntries (entries : List (String × JsonValue)) : List (String × JsonValue) :=
  entries.foldl (fun acc kv => setProp acc kv.1 kv.2) []

mutual

/-- Recursive-descent JSON value parser (fuel-indexed; the fuel strictly
exceeds the nesting depth of any input it is called on). -/
def parseValue : Nat → List Char → Option (JsonValue × List Char)
  | 0, _ => none
  | fuel + 1, cs =>
      match skipWs cs with
      | 'n' :: 'u' :: 'l' :: 'l' :: rest => some (.null, rest)
      | 't' :: 'r' :: 'u' :: 'e' :: rest => some (.bool true, rest)
      | 'f' :: 'a' :: 'l' :: 's' :: 'e' :: rest => some (.bool false, rest)
      | '"' :: rest =>
          (parseStringBody rest).map (fun r => (.str (String.mk r.1), r.2))
      | '[' :: rest =>
          (match skipWs rest with
           | ']' :: rest' => some (.arr [], rest')
           | _ => (parseElems fuel (skipWs rest)).map (fun r => (.arr r.1, r.2)))
      | '{' :: rest =>
          (match skipWs rest with
           | '}' :: rest' => some (.obj [], rest')
           | _ => (parseMembers fuel (skipWs rest)).map
                    (fun r => (.obj (objFromEntries r.1), r.2)))
      | cs' => (parseNumber cs').map (fun r => (.num r.1, r.2))

/-- Parse one-or-more comma-separated array elements followed by `]`. -/
def parseElems : Nat → List Char → Option (List JsonValue × List Char)
  | 0, _ => none
  | fuel + 1, cs =>
      match parseValue fuel cs with
      | none => none
      | some (v, rest) =>
          match skipWs rest with
          | ',' :: rest' =>
              (parseElems fuel rest').map (fun r => (v :: r.1, r.2))
          | ']' :: rest' => some ([v], rest')
          | _ => none

/-- Parse one-or-more comma-separated object members followed by `}`, as a raw
member sequence (consolidated by `objFromEntries` at the call site). -/
def parseMembers : Nat → List Char → Option (List (String × JsonValue) × List Char)
  | 0, _ => none
  | fuel + 1, cs =>
      match skipWs cs with
      | '"' :: rest =>
          match parseStringBody rest with
          | none => none
          | some (kcs, rest') =>
              match skipWs rest' with
              | ':' :: rest'' =>
                  match parseValue fuel rest'' with
                  | none => none
                  | some (v, rest''') =>
                      match skipWs rest''' with
                      | ',' :: r4 =>
                          (parseMembers fuel r4).map
                            (fun r => ((String.mk kcs, v) :: r.1, r.2))
                      | '}' :: r4 => some ([(String.mk kcs, v)], r4)
                      | _ => none
              | _ => none
      | _ => none

end

/-- `JSON.parse`: parse a full text, requiring only trailing whitespace after
the value. `none` models the `SyntaxError` thrown by the platform parser. -/
def jsonParse (s : String) : Option JsonValue :=
  match parseValue (s.length + 1) s.data with
  | some (v, rest) => if (skipWs rest).isEmpty then some v else none
  | none => none

/-- The whitespace skipped by `Number.parseInt`. -/
def isJsWs (c : Char) : Bool :=
  c = ' ' ∨ c = '\t' ∨ c = '\n' ∨ c = '\r'

/-- `Number.parseInt` (platform builtin, radix auto-detected): skip leading
whitespace, optional sign, optional `0x`/`0X` hex prefix, then the longest
digit prefix; `none` models `NaN`. Defined on the character list. -/
def parseIntChars (cs0 : List Char) : Option Int :=
  let cs := cs0.dropWhile isJsWs
  let sign : Int := if cs.head? = some '-' then -1 else 1
  let cs1 := if cs.head? = some '-' ∨ cs.head? = some '+' then cs.tail else cs
  if cs1.head? = some '0' ∧ (cs1.tail.head? = some 'x' ∨ cs1.tail.head? = some 'X') then
    let ds := cs1.tail.tail.takeWhile (fun c => (hexVal c).isSome)
    if ds.isEmpty then none
    else some (sign * (ds.foldl (fun acc c => acc * 16 + ((hexVal c).getD 0)) 0 : Nat))
  else
    let ds := cs1.takeWhile Char.isDigit
    if ds.isEmpty then none
    else some (sign * (digitsToNat 0 ds : Int))

/-- `Number.parseInt` applied to a string. -/
def parseIntJS (s : String) : Option Int := parseIntChars s.data

/-- `get expandAttributeValue`: missing attribute ⇒ 1, `NaN` or negative ⇒ 0. -/
def expandAttributeValue (attr : Option String) : Int :=
  match attr with
  | none => 1
  | some s =>
      match parseIntJS s with
      | none => 0
      | some n => if n < 0 then 0 else n

/-- `get truncateStringAttributeValue`: missing ⇒ 500, `NaN` or negative ⇒ 0.
The result is always non-negative, so it is returned as a `Nat`. -/
def truncateStringAttributeValue (attr : Option String) : Nat :=
  match attr with
  | none => 500
  | some s =>
      match parseIntJS s with
      | none => 0
      | some n => if n < 0 then 0 else n.toNat

/-- The state of one `x-pre-json` element that the verified operations read
and write. `input = none` models the uninitialized (`undefined`) field before
`connectedCallback` has parsed the text payload; attribute fields are `none`
when the attribute is absent. -/
structure ElemState where
  input : Option JsonValue := none
  text : String := ""
  key : Option String := none
  expandAttr : Option String := none
  truncAttr : Option String := none
  editable : Bool := false
  arrSize : Bool := false
  isExpanded : Bool := true

/-- JS truthiness of `this.getAttribute("key")`: present and non-empty. -/
def keyTruthy : Option String → Bool
  | none => false
  | some s => s ≠ ""

/-- Canonical JS array index denoted by a property key: `some i` when the key
is the canonical decimal form of `i` (no sign, no leading zeros). -/
def arrayIndexOf (k : String) : Option Nat :=
  match k.data with
  | [] => none
  | ['0'] => some 0
  | c :: _ =>
      if c = '0' then none
      else if k.data.all Char.isDigit then some (digitsToNat 0 k.data)
      else none

/-- JS element assignment `arr[i] = v`: in range sets the slot; past the end
extends the array with holes, which `JSON.stringify` renders as `null`. -/
def setIdx (xs : List JsonValue) (i : Nat) (v : JsonValue) : List JsonValue :=
  if i < xs.length then xs.set i v
  else xs ++ List.replicate (i - xs.length) .null ++ [v]

/-- `this.input = this.input ?? \x7b\x7d; this.input[key] = value` — the merge
step of `handleChildUpdate` (and of the editor's fallback branch).
`none` models the `TypeError` of assigning a property on a primitive in
strict-mode JS (the component's class methods are strict). An assignment with
a non-index key on an array adds a property that `JSON.stringify` ignores. -/
def jsMerge (input : Option JsonValue) (k : String) (v : JsonValue) : Option JsonValue :=
  match input with
  | none => some (.obj [(k, v)])
  | some .null => some (.obj [(k, v)])
  | some (.obj kvs) => some (.obj (setProp kvs k v))
  | some (.arr xs) =>
      match arrayIndexOf k with
      | some i => some (.arr (setIdx xs i v))
      | none => some (.arr xs)
  | some _ => none

/-- `handleChildUpdate(key, value)` (src/xprejson.js:736-750), acting on the
receiving node together with its chain of ancestor hosts (nearest first; the
chain is finite because shadow-DOM nesting is).  Returns the updated node, the
updated ancestor chain, and whether a payload-free `input` event was
dispatched (the else branch).  The parent recursion happens exactly when a
parent host exists and the node's own `key` attribute is truthy.  (The
second, unnamed source variant omits the root dispatch inside
`handleChildUpdate`; this development follows src/xprejson.js.) -/
def handleChildUpdate (node : ElemState) (anc : List ElemState) (k : String)
    (v : JsonValue) : Option (ElemState × List ElemState × Bool) :=
  match jsMerge node.input k v with
  | none => none
  | some w =>
      let node' := { node with input := some w, text := jsonStringify w }
      match anc with
      | [] => some (node', [], true)
      | parent :: rest =>
          match node.key with
          | none => some (node', parent :: rest, true)
          | some myKey =>
              if myKey = "" then some (node', parent :: rest, true)
              else
                match handleChildUpdate parent rest myKey w with
                | none => none
                | some (p', r', d) => some (node', p' :: r', d)

/-- Whether `this.input = this.input ?? \x7b\x7d; this.input[k] = v` succeeds:
true for `undefined`, `null`, objects and arrays; assigning a property on any
other primitive throws in strict-mode JS (class methods are strict). -/
def mergeable : Option JsonValue → Bool
  | some (.bool _) => false
  | some (.num _) => false
  | some (.str _) => false
  | _ => true

/-- A well-formed propagation chain: every node on it can merge, and every
node that still has a parent on the chain carries a truthy `key` attribute
(the root may be keyless). -/
def chainOk : ElemState → List ElemState → Bool
  | node, [] => mergeable node.input
  | node, p :: rest => mergeable node.input && keyTruthy node.key && chainOk p rest

/-- `attributeChangedCallback` for the observed `expand` attribute: removed ⇒
collapsed; otherwise expanded iff the value parses to a positive integer. -/
def isExpandedFromAttr (newValue : Option String) : Bool :=
  match newValue with
  | none => false
  | some s =>
      match parseIntJS s with
      | none => false
      | some n => 0 < n

/-- `setAttribute("expand", v)` including the synchronous
`attributeChangedCallback` re-entry it triggers on an upgraded element. -/
def setExpandAttribute (st : ElemState) (v : String) : ElemState :=
  { st with expandAttr := some v, isExpanded := isExpandedFromAttr (some v) }

/-- `toggle()`: flip `isExpanded`, then write the `expand` attribute
(old parsed value plus one when expanding, `"0"` when collapsing), which
re-enters `attributeChangedCallback`, then re-render. -/
def toggle (st : ElemState) : ElemState :=
  let flipped := !st.isExpanded
  let st1 := { st with isExpanded := flipped }
  setExpandAttribute st1
    (if flipped then jsStringOfInt (expandAttributeValue st1.expandAttr + 1) else "0")

/-- `typeof` of the (possibly `undefined`) input. -/
def jsTypeof : Option JsonValue → String
  | none => "undefined"
  | some .null => "object"
  | some (.bool _) => "boolean"
  | some (.num _) => "number"
  | some (.str _) => "string"
  | some (.arr _) => "object"
  | some (.obj _) => "object"

/-- `isPrimitiveValue(input)`: `typeof input !== "object" || input === null`. -/
def isPrimitiveValue : Option JsonValue → Bool
  | some (.obj _) => false
  | some (.arr _) => false
  | _ => true

mutual

/-- JS `ToString` coercion of a defined value, as applied by the `URL`
constructor and the `href` setter: strings pass through, arrays join their
stringified elements with commas (`null` elements become empty), plain
objects become `"[object Object]"`. -/
def jsToStringVal : JsonValue → String
  | .null => "null"
  | .bool b => cond b "true" "false"
  | .num n => jsStringOfInt n
  | .str s => s
  | .arr xs => jsToStringElems xs
  | .obj _ => "[object Object]"

/-- `Array.prototype.toString` body: `join(",")` with `null`/`undefined`
elements contributing the empty string. -/
def jsToStringElems : List JsonValue → String
  | [] => ""
  | [.null] => ""
  | [x] => jsToStringVal x
  | .null :: y :: rest => "," ++ jsToStringElems (y :: rest)
  | x :: y :: rest => jsToStringVal x ++ "," ++ jsToStringElems (y :: rest)

end

/-- JS `ToString` of the possibly-`undefined` input field. -/
def jsToString : Option JsonValue → String
  | none => "undefined"
  | some v => jsToStringVal v

/-- A scheme-start code point followed by scheme code points and `:`. -/
def splitScheme (cs : List Char) : Option (List Char × List Char) :=
  match cs with
  | c :: rest =>
      if c.isAlpha then
        let body := rest.takeWhile
          (fun ch => ch.isAlpha ∨ ch.isDigit ∨ ch = '+' ∨ ch = '-' ∨ ch = '.')
        match rest.dropWhile
          (fun ch => ch.isAlpha ∨ ch.isDigit ∨ ch = '+' ∨ ch = '-' ∨ ch = '.') with
        | ':' :: tail => some (c :: body, tail)
        | _ => none
      else none
  | [] => none

/-- Platform builtin `new URL(s)` success, i.e. `s` parses as an absolute URL
(simplified WHATWG model: a valid scheme is required; the special schemes
additionally require `//` and a non-empty host). All inputs the claims
evaluate are decided correctly by this model: strings with no scheme prefix —
including `"[object Object]"` and `"undefined"` — fail, while ordinary
absolute `http(s)` URLs succeed. -/
def urlParses (s : String) : Bool :=
  match splitScheme s.data with
  | none => false
  | some (scheme, rest) =>
      let schemeStr := String.mk (scheme.map Char.toLower)
      if schemeStr = "http" ∨ schemeStr = "https" ∨ schemeStr = "ws" ∨
         schemeStr = "wss" ∨ schemeStr = "ftp" then
        match rest with
        | '/' :: '/' :: h :: _ => h ≠ '/'
        | _ => false
      else true

/-- `isValidStringURL()` (src/xprejson.js:353-360): note that it tries
`new URL(this.input)` — the element's whole input value — not the primitive
currently being rendered. -/
def isValidStringURL (st : ElemState) : Bool :=
  urlParses (jsToString st.input)

/-- The content of a rendered primitive element: the quoted hyperlink branch
(`target="_blank"`, i.e. a new browsing context), the truncated-string branch
(the shown prefix followed by the ellipsis continuation control), or plain
text with no control. -/
inductive PrimContent where
  | urlAnchor (href : String) (textShown : String)
  | truncated (prefixShown : String)
  | plain (text : String)

/-- A rendered primitive value element: its type class tag, its `key`
attribute (`key ?? ""`), and its content. -/
structure PrimElement where
  type : String
  keyAttr : String
  content : PrimContent

/-- `JSON.stringify` of a possibly-`undefined` primitive as assigned to
`textContent`: `JSON.stringify(undefined)` is `undefined`, which the
`textContent` setter converts to the empty string. -/
def stringifyForTextContent : Option JsonValue → String
  | none => ""
  | some v => jsonStringify v

/-- `createTruncatedStringElement(input)` (src/xprejson.js:489-506), as far
as its initial display goes: the first `truncate-string` code units of the
string (`input.slice(0, limit)`, modelled by list `take`) followed by the
ellipsis continuation control. -/
def createTruncatedStringElement (st : ElemState) (input : String) : PrimContent :=
  .truncated (String.mk (input.data.take (truncateStringAttributeValue st.truncAttr)))

/-- `createPrimitiveValueElement(input, key)` (src/xprejson.js:369-389,
edit-listener attachment aside). The URL test and the anchor's `href` use
`this.input` (the whole node value), while the anchor text and the truncation
test use the rendered primitive `input`. -/
def createPrimitiveValueElement (st : ElemState) (input : Option JsonValue)
    (key : Option String) : PrimElement :=
  let type := if jsTypeof input = "object" then "null" else jsTypeof input
  { type := type
    keyAttr := key.getD ""
    content :=
      match input with
      | some (.str s) =>
          if isValidStringURL st then .urlAnchor (jsToString st.input) s
          else if truncateStringAttributeValue st.truncAttr < s.length then
            createTruncatedStringElement st s
          else .plain s
      | _ => .plain (stringifyForTextContent input) }

/-- One entry of an expanded object/array container. -/
inductive Entry where
  /-- An inline row for a primitive entry: the displayed key element (objects
  only), the primitive element, and whether the row was made draggable. -/
  | primRow (keyShown : Option String) (elem : PrimElement) (draggable : Bool)
  /-- The fixed `[]` marker row for an empty-array entry. -/
  | emptyArrayRow (keyShown : Option String)
  /-- A nested `x-pre-json` element created for a non-empty object/array
  entry, recorded by its text payload and the attributes set on it. -/
  | child (text : String) (expandAttr : String) (truncAttr : String)
      (keyAttr : String) (editableAttr : String) (arraySizeAttr : String)
      (comma : Bool)

/-- The container produced by `createObjectOrArray`. `body = none` models the
collapsed case (header plus a single expand affordance, no descendants). -/
structure Container where
  isArray : Bool
  hasKeyHeader : Bool
  arrCount : Option Nat
  emptyClass : Bool
  body : Option (List Entry)

/-- `Object.entries` for the values reachable here (objects keep insertion
order; arrays enumerate index strings; strings enumerate their characters;
other primitives have no own enumerable properties). -/
def objectEntries : JsonValue → List (String × JsonValue)
  | .obj kvs => kvs
  | .arr xs => (xs.enum).map (fun p => (jsStringOfNat p.1, p.2))
  | .str s => (s.data.enum).map (fun p => (jsStringOfNat p.1, .str (String.singleton p.2)))
  | _ => []

/-- `createObjectOrArray(object)` (src/xprejson.js:524-678): key header when
the node's own `key` attribute is truthy, array count annotation when
configured, only an expand affordance when collapsed, and otherwise one entry
per `Object.entries` element — an inline row for primitives and empty arrays
(draggable in editable arrays), or a nested `x-pre-json` element carrying the
serialized sub-value, decremented expand depth, propagated truncation limit,
the entry key, and `editable`/`array-size` attributes set to `""` or
`"false"` after the parent's flags. -/
def createObjectOrArray (st : ElemState) (object : JsonValue) : Container :=
  let isArray := object matches JsonValue.arr _
  let expand := expandAttributeValue st.expandAttr
  let truncateString := truncateStringAttributeValue st.truncAttr
  let entries := objectEntries object
  let header := keyTruthy st.key
  { isArray := isArray
    hasKeyHeader := header
    arrCount :=
      if header ∧ isArray ∧ st.arrSize then some entries.length else none
    emptyClass := isArray ∧ entries.length = 0
    body :=
      if !st.isExpanded then none
      else some ((entries.enum).map (fun p =>
        let index := p.1
        let key := p.2.1
        let value := p.2.2
        if isPrimitiveValue (some value) then
          .primRow (if isArray then none else some key)
            (createPrimitiveValueElement st (some value) (some key))
            (isArray ∧ st.editable)
        else if value matches JsonValue.arr [] then
          .emptyArrayRow (if isArray then none else some key)
        else
          .child (jsonStringify value) (jsStringOfInt (expand - 1))
            (jsStringOfNat truncateString) key
            (if st.editable then "" else "false")
            (if st.arrSize then "" else "false")
            (decide (index < entries.length - 1)))) }

/-- The component's own error kind: `class xPreJSONError extends Error`,
whose constructor sets `name = "xPreJSONError"` (src/xprejson.js:10-19). -/
structure XError where
  name : String
  message : String

/-- The DOM tree `createChild` appends to the shadow root: either a plain
container wrapping one primitive value element, or an object/array
container. -/
inductive ChildTree where
  | primitive (elem : PrimElement)
  | composite (c : Container)

/-- `createChild(input, expand, key)` (src/xprejson.js:330-337): primitives
(including `null` and `undefined`) get a primitive value element; objects and
arrays go through `createObjectOrArray`. `render` calls it with no key. -/
def createChild (st : ElemState) (input : Option JsonValue) : ChildTree :=
  if isPrimitiveValue input then
    .primitive (createPrimitiveValueElement st input none)
  else
    match input with
    | some v => .composite (createObjectOrArray st v)
    | none => .primitive (createPrimitiveValueElement st none none)

/-- `render()` (src/xprejson.js:758-775): throws the component's typed error
only when the shadow root is unavailable; otherwise replaces the shadow-root
contents with `createChild(this.input, ...)` — there is no check that
`this.input` has been initialized. -/
def render (st : ElemState) (hasShadowRoot : Bool) : Except XError ChildTree :=
  if !hasShadowRoot then .error ⟨"xPreJSONError", "Shadow root not available"⟩
  else .ok (createChild st st.input)

/-- The platform `SyntaxError` message is environment-specific; the mount
model keeps only the fixed prefix the component prepends. -/
def mountParseError : XError :=
  ⟨"xPreJSONError", "Error parsing JSON: "⟩

/-- `connectedCallback()` (src/xprejson.js:831-844): parse `textContent`
(`?? ""` elided — an element's `textContent` is never `null`); on failure
throw the typed error before any rendering; on success set `input` from that
single parse, derive `editable` from attribute presence, and render. -/
def connectedCallback (st : ElemState) (hasEditableAttr : Bool)
    (hasShadowRoot : Bool) : Except XError (ElemState × ChildTree) :=
  match jsonParse st.text with
  | none => .error mountParseError
  | some v =>
      let st' := { st with input := some v, editable := hasEditableAttr }
      (render st' hasShadowRoot).map (fun tree => (st', tree))

/-- `attributeChangedCallback` for `editable` and `array-size`
(src/xprejson.js:785-794): both flags are derived from attribute *presence*
(`!!this.hasAttribute(...)`), regardless of the attribute's value. -/
def flagFromAttr (attr : Option String) : Bool :=
  attr.isSome

/-- The two-branch value derivation of the edit controller's `onInput` and
`Escape` handlers (src/xprejson.js:400-413, 441-451): a session whose static
type tag is `string` keeps the literal text; any other tag parses the text as
JSON, falling back to the raw text as a string when parsing fails. Total —
the `catch` branch means it never throws. -/
def deriveEditValue (tag : String) (text : String) : JsonValue :=
  if tag = "string" then .str text
  else
    match jsonParse text with
    | some v => v
    | none => .str text

/-- One propagation step of the edit controller (shared by `onInput` and the
`Escape` handler): with a truthy key the host's `handleChildUpdate` is
invoked (the host of a primitive leaf's root node is an `x-pre-json`, whose
`handleChildUpdate` is always a function); with a falsy key the fallback
branch updates the host's value and text directly (its `modified`-attribute
notification is a no-op absent a marked shadow element and is not
modelled). -/
def propagateEdit (key : String) (host : ElemState) (anc : List ElemState)
    (parsed : JsonValue) : Option (ElemState × List ElemState × Bool) :=
  if key ≠ "" then handleChildUpdate host anc key parsed
  else
    (jsMerge host.input key parsed).map
      (fun w => ({ host with input := some w, text := jsonStringify w }, anc, false))

/-- The events a live edit session reacts to. -/
inductive EditEvent where
  /-- The element's text was edited to `newText`, firing `input`. -/
  | textInput (newText : String)
  /-- A `keydown` with the given `key`. -/
  | keydown (key : String)
  /-- A window-level click; `inside` is `container.contains(evt.target)`. -/
  | windowClick (inside : Bool)

/-- The state of one edit session together with its host chain. `session`
is true while `contenteditable` and the session listeners are attached. -/
structure EditState where
  session : Bool
  display : String
  host : ElemState
  anc : List ElemState

/-- One step of the edit-session protocol (src/xprejson.js:390-480) for a
session with static type tag `tag`, revert snapshot `orig` and element key
`key`: live input re-derives a value and propagates it; `Enter` only ends
the session; `Escape` restores the snapshot, re-derives and re-propagates it,
then ends the session; any other key is consumed; an outside click ends the
session silently. Once the session has ended the listeners are detached, so
every event leaves the state unchanged. -/
def editStep (tag orig key : String) (st : EditState) (ev : EditEvent) :
    Option EditState :=
  if !st.session then some st
  else
    match ev with
    | .textInput t =>
        (propagateEdit key st.host st.anc (deriveEditValue tag t)).map
          (fun r => { st with display := t, host := r.1, anc := r.2.1 })
    | .keydown k =>
        if k = "Enter" then some { st with session := false }
        else if k = "Escape" then
          (propagateEdit key st.host st.anc (deriveEditValue tag orig)).map
            (fun r => { session := false, display := orig, host := r.1, anc := r.2.1 })
        else some st
    | .windowClick inside =>
        if inside then some st else some { st with session := false }

/-- A whole edit session: the initial click snapshots the displayed text and
attaches the listeners; the events then run in order. -/
def runEditSession (tag orig key : String) (st : EditState)
    (evs : List EditEvent) : Option EditState :=
  evs.foldlM (editStep tag orig key) st

/-- `isBefore(el1, el2)` (src/xprejson.js:643-650) on the sibling list `l`:
walk `el1`'s previous siblings looking for `el2` — true exactly when `el2`
occurs before `el1`'s first occurrence. -/
def isBefore (l : List Nat) (el1 el2 : Nat) : Bool :=
  (l.takeWhile (fun x => x ≠ el1)).contains el2

/-- `container.insertBefore(x, target)` for a row already in the container:
`x` is placed immediately before the first occurrence of `target`
(appended when `target` is absent, the `insertBefore(x, null)` case). -/
def insertBeforeElem (l : List Nat) (x target : Nat) : List Nat :=
  match l with
  | [] => [x]
  | y :: ys => if y = target then x :: y :: ys else y :: insertBeforeElem ys x target

/-- `container.insertBefore(x, target.nextSibling)`: `x` is placed
immediately after the first occurrence of `target`. -/
def insertAfterElem (l : List Nat) (x target : Nat) : List Nat :=
  match l with
  | [] => [x]
  | y :: ys => if y = target then y :: x :: ys else y :: insertAfterElem ys x target

/-- The `dragover` handler (src/xprejson.js:591-604) on the container's
sibling row list: no-op without a recorded dragged row, on the dragged row
itself, or on a candidate outside the container; otherwise the dragged row
moves immediately before the candidate when the candidate precedes it, and
immediately after the candidate when it does not. -/
def dragOver (sel : Option Nat) (l : List Nat) (target : Nat) : List Nat :=
  match sel with
  | none => l
  | some dragged =>
      if dragged = target then l
      else if !(l.contains target) then l
      else if isBefore l dragged target then
        insertBeforeElem (l.erase dragged) dragged target
      else insertAfterElem (l.erase dragged) dragged target

/-- What the claim's own wording tests: the dragged row *appears earlier* in
sibling order than the candidate (`dragged` occurs before `target`'s first
occurrence). Stated from the spec sentence, for comparison with the code's
`isBefore(dragged, target)` test. -/
def appearsEarlierSpec (l : List Nat) (dragged target : Nat) : Bool :=
  (l.takeWhile (fun x => x ≠ target)).contains dragged

/-- A row of an editable array container at `dragend` time: either a wrapped
nested `x-pre-json` (recorded by its `textContent`) or an inline primitive
row (recorded by its text content). -/
inductive Row where
  | nested (text : String)
  | prim (text : String)

/-- JS `String.prototype.trim`: strip leading and trailing whitespace. -/
def jsTrim (s : String) : String :=
  String.mk (((s.data.dropWhile isJsWs).reverse.dropWhile isJsWs).reverse)

/-- The row-to-value extraction of `dragEnd` (src/xprejson.js:614-631): a
nested node's text parsed as JSON falling back to the raw text, else the
row's trimmed text parsed as JSON falling back to the raw trimmed text. -/
def rowEffectiveValue : Row → JsonValue
  | .nested t =>
      (match jsonParse t with
       | some v => v
       | none => .str t)
  | .prim t =>
      let txt := jsTrim t
      (match jsonParse txt with
       | some v => v
       | none => .str txt)

/-- The result of the `dragend` handler: the cleared drag marker, the
updated owning node, the updated ancestor chain, and whether a root-level
`input` event was dispatched along the propagation chain. -/
structure DragEndResult where
  selected : Option Row
  self : ElemState
  anc : List ElemState
  dispatched : Bool

/-- The `dragend` handler (src/xprejson.js:609-642): clear the dragged-row
marker, rebuild the array from the container's direct `.row` children in
their current DOM order, replace the owning node's value and canonical text,
re-render, and — when a parent host exists and the node's own key is
truthy — report `(key, new full array)` to the parent via
`handleChildUpdate`. -/
def dragEnd (_sel : Option Row) (self : ElemState) (anc : List ElemState)
    (rows : List Row) : Option DragEndResult :=
  let newArr := JsonValue.arr (rows.map rowEffectiveValue)
  let self' := { self with input := some newArr, text := jsonStringify newArr }
  match anc with
  | [] => some ⟨none, self', [], false⟩
  | parent :: rest =>
      match self.key with
      | none => some ⟨none, self', parent :: rest, false⟩
      | some myKey =>
          if myKey = "" then some ⟨none, self', parent :: rest, false⟩
          else
            (handleChildUpdate parent rest myKey newArr).map
              (fun r => ⟨none, self', r.1 :: r.2.1, r.2.2⟩)

theorem digitsToNat_append (l1 l2 : List Char) :
    ∀ acc, digitsToNat acc (l1 ++ l2) = digitsToNat (digitsToNat acc l1) l2 := by
  induction l1 with
  | nil => intro acc; rfl
  | cons c t ih =>
      intro acc
      rw [List.cons_append]
      show digitsToNat (acc * 10 + (c.toNat - '0'.toNat)) (t ++ l2) = _
      rw [ih]
      rfl

theorem digitChar_isDigit : ∀ m, m < 10 → (Nat.digitChar m).isDigit = true := by
  intro m hm
  interval_cases m <;> rfl

theorem digitChar_toNat : ∀ m, m < 10 → (Nat.digitChar m).toNat = 48 + m := by
  intro m hm
  interval_cases m <;> rfl

theorem digitChar_ne_zero : ∀ m, m < 10 → 1 ≤ m → Nat.digitChar m ≠ '0' := by
  intro m hm h1
  interval_cases m <;> decide

theorem natDigitsFuel_spec : ∀ fuel n, n < fuel →
    digitsToNat 0 (natDigitsFuel fuel n) = n ∧
    natDigitsFuel fuel n ≠ [] ∧
    (∀ c ∈ natDigitsFuel fuel n, c.isDigit = true) ∧
    (1 ≤ n → (natDigitsFuel fuel n).head? ≠ some '0') := by
  intro fuel
  induction fuel with
  | zero => omega
  | succ fuel ih =>
      intro n hn
      have h0 : '0'.toNat = 48 := rfl
      by_cases h : n < 10
      · refine ⟨?_, ?_, ?_, ?_⟩
        · rw [natDigitsFuel, if_pos h]
          show digitsToNat (0 * 10 + ((Nat.digitChar n).toNat - '0'.toNat)) [] = n
          rw [digitChar_toNat n h, h0]
          show 0 * 10 + (48 + n - 48) = n
          omega
        · rw [natDigitsFuel, if_pos h]
          simp
        · rw [natDigitsFuel, if_pos h]
          intro c hc
          simp at hc
          subst hc
          exact digitChar_isDigit n h
        · intro h1
          rw [natDigitsFuel, if_pos h]
          simpa using digitChar_ne_zero n h h1
      · have hdiv : n / 10 < n := Nat.div_lt_self (by omega) (by omega)
        obtain ⟨hv, hne, hdig, hhead⟩ := ih (n / 10) (by omega)
        have hm : n % 10 < 10 := Nat.mod_lt _ (by omega)
        refine ⟨?_, ?_, ?_, ?_⟩
        · rw [natDigitsFuel, if_neg h, digitsToNat_append, hv]
          show (n / 10) * 10 + ((Nat.digitChar (n % 10)).toNat - '0'.toNat) = n
          rw [digitChar_toNat _ hm, h0]
          omega
        · rw [natDigitsFuel, if_neg h]
          simp
        · rw [natDigitsFuel, if_neg h]
          intro c hc
          rcases List.mem_append.mp hc with hc' | hc'
          · exact hdig c hc'
          · simp at hc'
            subst hc'
            exact digitChar_isDigit _ hm
        · intro _
          rw [natDigitsFuel, if_neg h]
          cases hds : natDigitsFuel fuel (n / 10) with
          | nil => exact absurd hds hne
          | cons a t =>
              have := hhead (by omega)
              rw [hds] at this
              simpa using this

theorem natDigits_val (n : Nat) : digitsToNat 0 (natDigits n) = n :=
  (natDigitsFuel_spec (n + 1) n (by omega)).1

theorem natDigits_ne_nil (n : Nat) : natDigits n ≠ [] :=
  (natDigitsFuel_spec (n + 1) n (by omega)).2.1

theorem natDigits_all_digit (n : Nat) : ∀ c ∈ natDigits n, c.isDigit = true :=
  (natDigitsFuel_spec (n + 1) n (by omega)).2.2.1

theorem natDigits_head_ne_zero (n : Nat) (h : 1 ≤ n) :
    (natDigits n).head? ≠ some '0' :=
  (natDigitsFuel_spec (n + 1) n (by omega)).2.2.2 h

theorem isJsWs_of_digit (c : Char) (h : c.isDigit = true) : isJsWs c = false := by
  simp only [isJsWs, decide_eq_false_iff_not]
  push_neg
  refine ⟨?_, ?_, ?_, ?_⟩ <;> (intro hc; subst hc; exact absurd h (by decide))

theorem parseIntJS_digits (ds : List Char) (hne : ds ≠ [])
    (hdig : ∀ c ∈ ds, c.isDigit = true) (hhead : ds.head? ≠ some '0') :
    parseIntJS (String.mk ds) = some ((digitsToNat 0 ds : Nat) : Int) := by
  obtain ⟨c, t, rfl⟩ : ∃ c t, ds = c :: t := by
    cases ds with
    | nil => exact absurd rfl hne
    | cons c t => exact ⟨c, t, rfl⟩
  have hc : c.isDigit = true := hdig c (by simp)
  have hcne : ∀ x : Char, x.isDigit = false → c ≠ x := by
    intro x hx hcx
    rw [hcx] at hc
    rw [hc] at hx
    cases hx
  have hc0 : c ≠ '0' := by
    intro h0
    apply hhead
    simp [h0]
  have h1 : c ≠ '-' := hcne '-' (by decide)
  have h2 : c ≠ '+' := hcne '+' (by decide)
  show parseIntChars (c :: t) = some ((digitsToNat 0 (c :: t) : Nat) : Int)
  simp [parseIntChars, isJsWs_of_digit c hc, h1, h2, hc0,
    List.takeWhile_eq_self_iff.mpr hdig]

theorem parseIntJS_jsStringOfNat (n : Nat) (h : 1 ≤ n) :
    parseIntJS (jsStringOfNat n) = some (n : Int) := by
  rw [jsStringOfNat,
    parseIntJS_digits (natDigits n) (natDigits_ne_nil n) (natDigits_all_digit n)
      (natDigits_head_ne_zero n h), natDigits_val]

theorem parseIntJS_jsStringOfInt_pos (n : Int) (h : 1 ≤ n) :
    parseIntJS (jsStringOfInt n) = some n := by
  rw [jsStringOfInt, if_neg (by omega), parseIntJS_jsStringOfNat n.toNat (by omega)]
  congr 1
  omega

theorem expandAttributeValue_nonneg (a : Option String) : 0 ≤ expandAttributeValue a := by
  cases a with
  | none => simp [expandAttributeValue]
  | some s =>
      rw [expandAttributeValue]
      cases hp : parseIntJS s with
      | none => norm_num
      | some n =>
          dsimp only
          split <;> omega

theorem isExpandedFromAttr_incr (a : Option String) :
    isExpandedFromAttr (some (jsStringOfInt (expandAttributeValue a + 1))) = true := by
  have h := expandAttributeValue_nonneg a
  simp only [isExpandedFromAttr,
    parseIntJS_jsStringOfInt_pos (expandAttributeValue a + 1) (by omega)]
  simp
  omega

theorem toggle_collapse (st : ElemState) (h : st.isExpanded = true) :
    toggle st = { st with isExpanded := false, expandAttr := some "0" } := by
  simp [toggle, h, setExpandAttribute]
  rfl

theorem toggle_expand (st : ElemState) (h : st.isExpanded = false) :
    toggle st =
      { st with
        isExpanded := true
        expandAttr := some (jsStringOfInt (expandAttributeValue st.expandAttr + 1)) } := by
  have hx := isExpandedFromAttr_incr st.expandAttr
  simp [toggle, h, setExpandAttribute, hx]

/-- C9: `toggle` called twice restores the expanded/collapsed boolean but
normalizes the stored depth — collapsing always writes `expand="0"`,
expanding writes one plus the attribute's current parsed value, so a node
originally configured with depth `d ≥ 2` ends with depth exactly `1` after
collapse-then-expand, and the children the re-rendered node then creates
receive `expand="0"` (the string `createObjectOrArray` computes as
`String(expand - 1)`), which derives the Collapsed state. -/
theorem c9_toggle_twice_normalizes_depth :
    (∀ st : ElemState, (toggle (toggle st)).isExpanded = st.isExpanded) ∧
    (∀ st : ElemState, st.isExpanded = true →
        (toggle st).expandAttr = some "0" ∧ (toggle st).isExpanded = false) ∧
    (∀ st : ElemState, st.isExpanded = false →
        (toggle st).expandAttr =
          some (jsStringOfInt (expandAttributeValue st.expandAttr + 1)) ∧
        (toggle st).isExpanded = true) ∧
    (∀ st : ElemState, ∀ d : Int, st.isExpanded = true →
        st.expandAttr = some (jsStringOfInt d) → 2 ≤ d →
        (toggle (toggle st)).expandAttr = some "1" ∧
        (toggle (toggle st)).isExpanded = true ∧
        expandAttributeValue (toggle (toggle st)).expandAttr = 1 ∧
        jsStringOfInt (expandAttributeValue (toggle (toggle st)).expandAttr - 1) = "0" ∧
        isExpandedFromAttr (some "0") = false) := by
  have hcol : ∀ st : ElemState, st.isExpanded = true →
      (toggle st).expandAttr = some "0" ∧ (toggle st).isExpanded = false := by
    intro st h
    rw [toggle_collapse st h]
    exact ⟨rfl, rfl⟩
  have hexp : ∀ st : ElemState, st.isExpanded = false →
      (toggle st).expandAttr =
        some (jsStringOfInt (expandAttributeValue st.expandAttr + 1)) ∧
      (toggle st).isExpanded = true := by
    intro st h
    rw [toggle_expand st h]
    exact ⟨rfl, rfl⟩
  refine ⟨?_, hcol, hexp, ?_⟩
  · intro st
    cases h : st.isExpanded with
    | true =>
        rw [toggle_collapse st h]
        rw [toggle_expand _ rfl]
    | false =>
        rw [toggle_expand st h]
        rw [toggle_collapse _ (by simp [isExpandedFromAttr_incr st.expandAttr])]
  · intro st d h _ _
    rw [toggle_collapse st h, toggle_expand _ rfl]
    refine ⟨rfl, rfl, rfl, rfl, rfl⟩

/-- Witness for C9 at a node configured with `expand="3"`. -/
theorem c9_witness :
    ({ expandAttr := some "3", isExpanded := true : ElemState }).isExpanded = true ∧
    (toggle (toggle { expandAttr := some "3", isExpanded := true : ElemState })).expandAttr =
      some "1" := by
  refine ⟨rfl, ?_⟩
  exact (c9_toggle_twice_normalizes_depth.2.2.2
    { expandAttr := some "3", isExpanded := true } 3 rfl rfl (by norm_num)).1

/-- C10: a non-URL string primitive is truncated only when its length is
strictly greater than the truncation limit — equal or shorter strings render
in full as plain text with no continuation control — and when truncation
applies the displayed prefix is exactly the first `limit` characters
(empty when the limit is `0`) followed by the continuation control. -/
theorem c10_truncation_strict (st : ElemState) (s : String) (key : Option String)
    (hurl : isValidStringURL st = false) :
    (s.length ≤ truncateStringAttributeValue st.truncAttr →
      createPrimitiveValueElement st (some (.str s)) key =
        { type := "string", keyAttr := key.getD "", content := .plain s }) ∧
    (truncateStringAttributeValue st.truncAttr < s.length →
      createPrimitiveValueElement st (some (.str s)) key =
        { type := "string", keyAttr := key.getD "",
          content := .truncated
            (String.mk (s.data.take (truncateStringAttributeValue st.truncAttr))) }) ∧
    (truncateStringAttributeValue st.truncAttr = 0 → s ≠ "" →
      createPrimitiveValueElement st (some (.str s)) key =
        { type := "string", keyAttr := key.getD "", content := .truncated "" }) := by
  refine ⟨?_, ?_, ?_⟩
  · intro h1
    simp [createPrimitiveValueElement, jsTypeof, hurl, Nat.not_lt.mpr h1]
  · intro h1
    simp [createPrimitiveValueElement, jsTypeof, hurl, h1, createTruncatedStringElement]
  · intro h0 hs
    have hlen : 0 < s.length := by
      cases s with
      | mk data =>
          cases data with
          | nil => exact absurd rfl hs
          | cons c t => simp [String.length]
    have h1 : truncateStringAttributeValue st.truncAttr < s.length := by omega
    simp [createPrimitiveValueElement, jsTypeof, hurl, h1, createTruncatedStringElement, h0]
    omega

/-- Witness for C10: limit 3 keeps `"abc"` whole, truncates `"abcd"` to
`"abc"`, and limit 0 shows an empty prefix. -/
theorem c10_witness :
    isValidStringURL { truncAttr := some "3" : ElemState } = false ∧
    createPrimitiveValueElement { truncAttr := some "3" } (some (.str "abc")) none =
      { type := "string", keyAttr := "", content := .plain "abc" } ∧
    createPrimitiveValueElement { truncAttr := some "3" } (some (.str "abcd")) none =
      { type := "string", keyAttr := "", content := .truncated "abc" } ∧
    createPrimitiveValueElement { truncAttr := some "0" } (some (.str "abcd")) none =
      { type := "string", keyAttr := "", content := .truncated "" } := by
  refine ⟨rfl, ?_, ?_, ?_⟩
  · exact (c10_truncation_strict { truncAttr := some "3" } "abc" none rfl).1 (by decide)
  · exact (c10_truncation_strict { truncAttr := some "3" } "abcd" none rfl).2.1 (by decide)
  · exact (c10_truncation_strict { truncAttr := some "0" } "abcd" none rfl).2.2 rfl
      (by decide)

/-- C5 (code bug): a nested child always receives an `editable` and an
`array-size` attribute — `""` from an editable/array-size parent and the
string `"false"` otherwise — but both flags are then derived from attribute
*presence* (`!!this.hasAttribute(...)`, `flagFromAttr` here), so the child of
a non-editable parent carries `editable="false"` yet behaves as editable,
against the claimed iff-inheritance. Evaluated at `{"a":{"b":1}}` under a
parent with neither flag set. -/
theorem c5_presence_flag_bug :
    (createObjectOrArray { input := some (.obj [("a", .obj [("b", .num 1)])]) }
        (.obj [("a", .obj [("b", .num 1)])])).body =
      some [.child "\x7b\"b\":1\x7d" "0" "500" "a" "false" "false" false] ∧
    flagFromAttr (some "false") = true ∧
    flagFromAttr (some "") = true ∧
    flagFromAttr none = false := by
  exact ⟨rfl, rfl, rfl, rfl⟩

/-- C6 (code bug): the URL branch tests `new URL(this.input)` — the node's
*whole* value — rather than the string being rendered. For node value
`{"a":"https://example.com/"}` the entry string parses as an absolute URL,
yet the check stringifies the object to `"[object Object]"`, fails, and the
string renders as plain text; only the root-string case (where the rendered
string is the whole input) hyperlinks. -/
theorem c6_url_check_uses_whole_input :
    urlParses "https://example.com/" = true ∧
    isValidStringURL { input := some (.obj [("a", .str "https://example.com/")]) } = false ∧
    (createObjectOrArray { input := some (.obj [("a", .str "https://example.com/")]) }
        (.obj [("a", .str "https://example.com/")])).body =
      some [.primRow (some "a")
        { type := "string", keyAttr := "a", content := .plain "https://example.com/" } false] ∧
    createPrimitiveValueElement { input := some (.str "https://example.com/") }
        (some (.str "https://example.com/")) none =
      { type := "string", keyAttr := "",
        content := .urlAnchor "https://example.com/" "https://example.com/" } := by
  exact ⟨rfl, rfl, rfl, rfl⟩

/-- C8 counterexample: `render` invoked on a node whose value was never
initialized does not raise any error — with a shadow root present it
succeeds, rendering the `undefined` value as an empty primitive leaf. -/
theorem c8_counterexample_no_precondition_error :
    render { input := none : ElemState } true =
      .ok (.primitive { type := "undefined", keyAttr := "", content := .plain "" }) := rfl

/-- C8 amended: `render` raises the component's typed error exactly when the
shadow root is unavailable; with a shadow root it never raises, even before
mount-time parsing has initialized the value — the uninitialized value is
rendered as an `undefined` primitive leaf rather than rejected. -/
theorem c8_render_error_only_missing_shadow_root :
    (∀ st : ElemState,
        render st false = .error ⟨"xPreJSONError", "Shadow root not available"⟩) ∧
    (∀ st : ElemState, render st true = .ok (createChild st st.input)) ∧
    (∀ st : ElemState, st.input = none →
        render st true = .ok (.primitive (createPrimitiveValueElement st none none))) := by
  refine ⟨fun st => rfl, fun st => rfl, fun st h => ?_⟩
  show Except.ok (createChild st st.input) = _
  rw [h]
  rfl

/-- Witness for C8 at an uninitialized node. -/
theorem c8_witness :
    render { input := none : ElemState } false =
      .error ⟨"xPreJSONError", "Shadow root not available"⟩ ∧
    render { input := none : ElemState } true =
      .ok (.primitive (createPrimitiveValueElement { input := none } none none)) :=
  ⟨c8_render_error_only_missing_shadow_root.1 { input := none },
   c8_render_error_only_missing_shadow_root.2.2 { input := none } rfl⟩

/-- C7: mounting a node whose text payload does not parse as JSON raises the
component's own typed error (`name = "xPreJSONError"`) and construction
aborts with no tree produced; a payload that parses succeeds and initializes
the node's value from exactly that one parse before rendering it. -/
theorem c7_mount_parse_contract :
    ∀ (st : ElemState) (e s : Bool),
    (jsonParse st.text = none →
        connectedCallback st e s = .error mountParseError ∧
        mountParseError.name = "xPreJSONError" ∧
        ∀ r, connectedCallback st e s ≠ .ok r) ∧
    (∀ v, jsonParse st.text = some v →
        connectedCallback st e true =
          .ok ({ st with input := some v, editable := e },
               createChild { st with input := some v, editable := e } (some v))) := by
  intro st e s
  constructor
  · intro h
    refine ⟨?_, rfl, ?_⟩
    · simp [connectedCallback, h]
    · intro r
      simp [connectedCallback, h]
  · intro v h
    simp [connectedCallback, h, render]
    rfl

/-- Witness for C7: `"not json"` aborts with the typed error; `\x7b"x":5\x7d`
mounts with the parsed object. -/
theorem c7_witness :
    jsonParse "not json" = none ∧
    connectedCallback { text := "not json" } false true = .error mountParseError ∧
    jsonParse "\x7b\"x\":5\x7d" = some (.obj [("x", .num 5)]) ∧
    connectedCallback { text := "\x7b\"x\":5\x7d" } false true =
      .ok ({ text := "\x7b\"x\":5\x7d", input := some (.obj [("x", .num 5)]) },
           createChild { text := "\x7b\"x\":5\x7d", input := some (.obj [("x", .num 5)]) }
             (some (.obj [("x", .num 5)]))) := by
  refine ⟨rfl, ?_, rfl, ?_⟩
  · exact ((c7_mount_parse_contract { text := "not json" } false true).1 rfl).1
  · exact (c7_mount_parse_contract { text := "\x7b\"x\":5\x7d" } false true).2
      (.obj [("x", .num 5)]) rfl

theorem insertBeforeElem_split (m : List Nat) (x t : Nat) (h : t ∈ m) :
    ∃ l1 l2, m = l1 ++ t :: l2 ∧ insertBeforeElem m x t = l1 ++ x :: t :: l2 := by
  induction m with
  | nil => cases h
  | cons y ys ih =>
      by_cases hy : y = t
      · subst hy
        exact ⟨[], ys, rfl, by simp [insertBeforeElem]⟩
      · have hmem : t ∈ ys := by
          rcases List.mem_cons.mp h with h' | h'
          · exact absurd h'.symm hy
          · exact h'
        obtain ⟨l1, l2, hsplit, hins⟩ := ih hmem
        exact ⟨y :: l1, l2, by rw [hsplit]; rfl,
          by simp [insertBeforeElem, hy, hins]⟩

theorem insertAfterElem_split (m : List Nat) (x t : Nat) (h : t ∈ m) :
    ∃ l1 l2, m = l1 ++ t :: l2 ∧ insertAfterElem m x t = l1 ++ t :: x :: l2 := by
  induction m with
  | nil => cases h
  | cons y ys ih =>
      by_cases hy : y = t
      · subst hy
        exact ⟨[], ys, rfl, by simp [insertAfterElem]⟩
      · have hmem : t ∈ ys := by
          rcases List.mem_cons.mp h with h' | h'
          · exact absurd h'.symm hy
          · exact h'
        obtain ⟨l1, l2, hsplit, hins⟩ := ih hmem
        exact ⟨y :: l1, l2, by rw [hsplit]; rfl,
          by simp [insertAfterElem, hy, hins]⟩

theorem insertBeforeElem_perm (m : List Nat) (x t : Nat) :
    (insertBeforeElem m x t).Perm (x :: m) := by
  induction m with
  | nil => simp [insertBeforeElem]
  | cons y ys ih =>
      by_cases hy : y = t
      · simp [insertBeforeElem, hy]
      · simp only [insertBeforeElem, if_neg hy]
        exact (ih.cons y).trans (List.Perm.swap x y ys)

theorem insertAfterElem_perm (m : List Nat) (x t : Nat) :
    (insertAfterElem m x t).Perm (x :: m) := by
  induction m with
  | nil => simp [insertAfterElem]
  | cons y ys ih =>
      by_cases hy : y = t
      · simp only [insertAfterElem, if_pos hy]
        exact List.Perm.swap x y ys
      · simp only [insertAfterElem, if_neg hy]
        exact (ih.cons y).trans (List.Perm.swap x y ys)

theorem isBefore_eq_not_earlier (l : List Nat) (d t : Nat) (hd : d ∈ l) (ht : t ∈ l)
    (hne : d ≠ t) (hnd : l.Nodup) : isBefore l d t = !appearsEarlierSpec l d t := by
  induction l with
  | nil => cases hd
  | cons a r ih =>
      have hnr : r.Nodup := (List.nodup_cons.mp hnd).2
      have har : a ∉ r := (List.nodup_cons.mp hnd).1
      by_cases had : a = d
      · subst had
        have htr : t ∈ r := by
          rcases List.mem_cons.mp ht with h' | h'
          · exact absurd h'.symm hne
          · exact h'
        simp [isBefore, appearsEarlierSpec, hne, Ne.symm hne]
      · by_cases hat : a = t
        · subst hat
          simp [isBefore, appearsEarlierSpec, had, Ne.symm had]
        · have hdr : d ∈ r := by
            rcases List.mem_cons.mp hd with h' | h'
            · exact absurd h'.symm had
            · exact h'
          have htr : t ∈ r := by
            rcases List.mem_cons.mp ht with h' | h'
            · exact absurd h'.symm hat
            · exact h'
          have hres := ih hdr htr hnr
          have hsym1 : d ≠ a := Ne.symm had
          have hsym2 : t ≠ a := Ne.symm hat
          simpa [isBefore, appearsEarlierSpec, had, hat, hsym1, hsym2] using hres

/-- C4 counterexample: in the row list `[1, 2]` with row `1` dragged over
row `2`, the dragged row appears earlier in sibling order than the candidate,
so the claim requires it to be moved to immediately before the candidate
(leaving `[1, 2]`); the `dragover` handler instead moves it to immediately
after the candidate, producing `[2, 1]`. -/
theorem c4_counterexample_direction :
    appearsEarlierSpec [1, 2] 1 2 = true ∧
    dragOver (some 1) [1, 2] 2 = [2, 1] ∧
    dragOver (some 1) [1, 2] 2 ≠ [1, 2] := by decide

/-- C4 amended: when a dragged row is recorded and differs from the in-container
candidate, the handler permutes the sibling rows so that the dragged row sits
immediately *after* the candidate if the dragged row appeared earlier in
sibling order, and immediately *before* the candidate otherwise — the
opposite assignment of the claim's two cases. -/
theorem c4_dragover_moves_row (l : List Nat) (d t : Nat) (hd : d ∈ l) (ht : t ∈ l)
    (hne : d ≠ t) (hnd : l.Nodup) :
    (dragOver (some d) l t).Perm l ∧
    (appearsEarlierSpec l d t = true →
        ∃ l1 l2, dragOver (some d) l t = l1 ++ t :: d :: l2) ∧
    (appearsEarlierSpec l d t = false →
        ∃ l1 l2, dragOver (some d) l t = l1 ++ d :: t :: l2) := by
  have htri := isBefore_eq_not_earlier l d t hd ht hne hnd
  have hterase : t ∈ l.erase d := (List.mem_erase_of_ne (Ne.symm hne)).mpr ht
  cases hb : isBefore l d t with
  | true =>
      have hae : appearsEarlierSpec l d t = false := by
        rw [hb] at htri
        cases hx : appearsEarlierSpec l d t
        · rfl
        · rw [hx] at htri; cases htri
      have hres : dragOver (some d) l t = insertBeforeElem (l.erase d) d t := by
        simp [dragOver, hne, ht, hb]
      refine ⟨?_, ?_, ?_⟩
      · rw [hres]
        exact (insertBeforeElem_perm _ d t).trans (List.perm_cons_erase hd).symm
      · intro h
        rw [hae] at h
        cases h
      · intro _
        obtain ⟨l1, l2, _, hins⟩ := insertBeforeElem_split (l.erase d) d t hterase
        exact ⟨l1, l2, by rw [hres, hins]⟩
  | false =>
      have hae : appearsEarlierSpec l d t = true := by
        rw [hb] at htri
        cases hx : appearsEarlierSpec l d t
        · rw [hx] at htri; cases htri
        · rfl
      have hres : dragOver (some d) l t = insertAfterElem (l.erase d) d t := by
        simp [dragOver, hne, ht, hb]
      refine ⟨?_, ?_, ?_⟩
      · rw [hres]
        exact (insertAfterElem_perm _ d t).trans (List.perm_cons_erase hd).symm
      · intro _
        obtain ⟨l1, l2, _, hins⟩ := insertAfterElem_split (l.erase d) d t hterase
        exact ⟨l1, l2, by rw [hres, hins]⟩
      · intro h
        rw [hae] at h
        cases h

/-- Witness for C4's amended statement on `[10, 20, 30]`, dragging the first
row over the last. -/
theorem c4_witness :
    (dragOver (some 10) [10, 20, 30] 30).Perm [10, 20, 30] ∧
    ∃ l1 l2, dragOver (some 10) [10, 20, 30] 30 = l1 ++ 30 :: 10 :: l2 := by
  have h := c4_dragover_moves_row [10, 20, 30] 10 30 (by decide) (by decide)
    (by decide) (by decide)
  exact ⟨h.1, h.2.1 (by decide)⟩

theorem jsMerge_total (i : Option JsonValue) (k : String) (v : JsonValue)
    (h : mergeable i = true) : ∃ w, jsMerge i k v = some w := by
  cases i with
  | none => exact ⟨_, rfl⟩
  | some j =>
      cases j with
      | null => exact ⟨_, rfl⟩
      | obj kvs => exact ⟨_, rfl⟩
      | arr xs =>
          cases harr : arrayIndexOf k with
          | none => exact ⟨JsonValue.arr xs, by simp [jsMerge, harr]⟩
          | some i => exact ⟨JsonValue.arr (setIdx xs i v), by simp [jsMerge, harr]⟩
      | bool b => simp [mergeable] at h
      | num n => simp [mergeable] at h
      | str s => simp [mergeable] at h

/-- C1: a node receiving a child update `(k, v)` merges `v` into its value at
`k` (creating the slot if absent — `jsMerge`), re-serializes its full value
as its canonical textual form, and, when it was itself mounted under a truthy
key by a parent host, recursively invokes the same operation on that parent
with its own key and just-updated full value; a node with no parent host and
no key instead dispatches the payload-free `input` notification (the `true`
flag). Consequently, along any well-formed chain the update reaches the root
(dispatching there), and every node on the updated chain holds the canonical
serialization of its merged value. -/
theorem c1_change_propagation :
    (∀ (node parent : ElemState) (rest : List ElemState) (k myKey : String)
        (v w : JsonValue),
        jsMerge node.input k v = some w →
        node.key = some myKey → myKey ≠ "" →
        handleChildUpdate node (parent :: rest) k v =
          (handleChildUpdate parent rest myKey w).map
            (fun r => ({ node with input := some w, text := jsonStringify w },
                       r.1 :: r.2.1, r.2.2))) ∧
    (∀ (node : ElemState) (k : String) (v w : JsonValue),
        jsMerge node.input k v = some w → node.key = none →
        handleChildUpdate node [] k v =
          some ({ node with input := some w, text := jsonStringify w }, [], true)) ∧
    (∀ (anc : List ElemState) (node : ElemState) (k : String) (v : JsonValue),
        chainOk node anc = true →
        ∃ node' anc',
          handleChildUpdate node anc k v = some (node', anc', true) ∧
          anc'.length = anc.length ∧
          node'.input = jsMerge node.input k v ∧
          ∀ st ∈ node' :: anc', ∃ w, st.input = some w ∧ st.text = jsonStringify w) := by
  refine ⟨?_, ?_, ?_⟩
  · intro node parent rest k myKey v w hm hkey hne
    rw [handleChildUpdate.eq_def]
    simp only [hm, hkey, if_neg hne]
    cases handleChildUpdate parent rest myKey w with
    | none => rfl
    | some r => rfl
  · intro node k v w hm hkey
    rw [handleChildUpdate.eq_def]
    simp only [hm, hkey]
  · intro anc
    induction anc with
    | nil =>
        intro node k v hok
        have hm : mergeable node.input = true := by simpa [chainOk] using hok
        obtain ⟨w, hw⟩ := jsMerge_total node.input k v hm
        refine ⟨{ node with input := some w, text := jsonStringify w }, [], ?_, rfl,
          by rw [hw], ?_⟩
        · rw [handleChildUpdate.eq_def]
          simp only [hw]
        · intro st hst
          simp only [List.mem_singleton] at hst
          subst hst
          exact ⟨w, rfl, rfl⟩
    | cons parent rest ih =>
        intro node k v hok
        simp only [chainOk, Bool.and_eq_true] at hok
        obtain ⟨⟨hmerge, hkeyt⟩, hrest⟩ := hok
        obtain ⟨w, hw⟩ := jsMerge_total node.input k v hmerge
        obtain ⟨myKey, hkey, hkne⟩ : ∃ mk, node.key = some mk ∧ mk ≠ "" := by
          cases hk : node.key with
          | none => rw [hk] at hkeyt; cases hkeyt
          | some s =>
              refine ⟨s, rfl, ?_⟩
              rw [hk] at hkeyt
              simpa [keyTruthy] using hkeyt
        obtain ⟨p', r', hrec, hlen, _, hall⟩ := ih parent myKey w hrest
        refine ⟨{ node with input := some w, text := jsonStringify w }, p' :: r', ?_,
          by simp [hlen], by rw [hw], ?_⟩
        · rw [handleChildUpdate.eq_def]
          simp only [hw, hkey, if_neg hkne, hrec]
        · intro st hst
          rcases List.mem_cons.mp hst with h | h
          · subst h
            exact ⟨w, rfl, rfl⟩
          · exact hall st h

/-- Witness for C1 on a three-level chain: updating key `"c"` two levels deep
re-serializes every ancestor up to the root and dispatches there. -/
theorem c1_witness :
    chainOk
      { input := some (.obj [("c", .num 1)]), key := some "b" }
      [{ input := some (.obj [("b", .obj [("c", .num 1)])]), key := some "a" },
       { input := some (.obj [("a", .obj [("b", .obj [("c", .num 1)])])]), key := none }] = true ∧
    ∃ node' anc',
      handleChildUpdate
        { input := some (.obj [("c", .num 1)]), key := some "b" }
        [{ input := some (.obj [("b", .obj [("c", .num 1)])]), key := some "a" },
         { input := some (.obj [("a", .obj [("b", .obj [("c", .num 1)])])]), key := none }]
        "c" (.num 2) = some (node', anc', true) ∧
      anc'.length = 2 ∧
      node'.input = jsMerge (some (.obj [("c", .num 1)])) "c" (.num 2) ∧
      ∀ st ∈ node' :: anc', ∃ w, st.input = some w ∧ st.text = jsonStringify w := by
  refine ⟨rfl, ?_⟩
  exact c1_change_propagation.2.2
    [{ input := some (.obj [("b", .obj [("c", .num 1)])]), key := some "a" },
     { input := some (.obj [("a", .obj [("b", .obj [("c", .num 1)])])]), key := none }]
    { input := some (.obj [("c", .num 1)]), key := some "b" }
    "c" (.num 2) rfl

/-- C2: during an edit session on a primitive leaf, every live text change
re-derives the value by the fixed two-branch rule over the session's static
type tag (string tag ⇒ literal text; otherwise JSON-parse with fallback to
the raw text, never throwing — `deriveEditValue` is total), the `(key, value)`
pair is propagated on every change through `handleChildUpdate`, and `Enter`
only ends the session, leaving the last propagated value final (an ended
session ignores all further events). For `\x7b"x":5\x7d` editable, editing
the leaf text to `7` and pressing Enter yields canonical form `\x7b"x":7\x7d`
with the numeric 7, not the string `"7"`. -/
theorem c2_edit_two_branch_commit :
    (∀ t : String, deriveEditValue "string" t = .str t) ∧
    (∀ (tag t : String) (v : JsonValue), tag ≠ "string" → jsonParse t = some v →
        deriveEditValue tag t = v) ∧
    (∀ tag t : String, tag ≠ "string" → jsonParse t = none →
        deriveEditValue tag t = .str t) ∧
    (∀ (tag orig key : String) (st : EditState) (t : String),
        st.session = true → key ≠ "" →
        editStep tag orig key st (.textInput t) =
          (handleChildUpdate st.host st.anc key (deriveEditValue tag t)).map
            (fun r => { st with display := t, host := r.1, anc := r.2.1 })) ∧
    (∀ (tag orig key : String) (st : EditState), st.session = true →
        editStep tag orig key st (.keydown "Enter") =
          some { st with session := false }) ∧
    (∀ (tag orig key : String) (st : EditState) (ev : EditEvent),
        st.session = false → editStep tag orig key st ev = some st) ∧
    (runEditSession "number" "5" "x"
        { session := true, display := "5",
          host := { input := some (.obj [("x", .num 5)]), text := "\x7b\"x\":5\x7d" },
          anc := [] }
        [.textInput "7", .keydown "Enter"] =
      some { session := false, display := "7",
             host := { input := some (.obj [("x", .num 7)]), text := "\x7b\"x\":7\x7d" },
             anc := [] }) ∧
    JsonValue.num 7 ≠ JsonValue.str "7" := by
  refine ⟨fun t => rfl, ?_, ?_, ?_, ?_, ?_, rfl, fun h => JsonValue.noConfusion h⟩
  · intro tag t v hne hp
    simp only [deriveEditValue, if_neg hne, hp]
  · intro tag t hne hp
    simp only [deriveEditValue, if_neg hne, hp]
  · intro tag orig key st t hs hk
    simp only [editStep, hs, Bool.not_true, Bool.false_eq_true, if_false, propagateEdit,
      if_pos hk]
  · intro tag orig key st hs
    simp only [editStep, hs, Bool.not_true, Bool.false_eq_true, if_false, if_pos rfl,
      if_true, reduceIte]
  · intro tag orig key st ev hs
    simp only [editStep, hs, Bool.not_false, if_true]

/-- Witness for C2: the non-string branch parses `"7"` to the number 7, and a
live input inside an active keyed session propagates through
`handleChildUpdate`. -/
theorem c2_witness :
    deriveEditValue "number" "7" = .num 7 ∧
    editStep "number" "5" "x"
        { session := true, display := "5",
          host := { input := some (.obj [("x", .num 5)]), text := "\x7b\"x\":5\x7d" },
          anc := [] }
        (.textInput "7") =
      (handleChildUpdate { input := some (.obj [("x", .num 5)]), text := "\x7b\"x\":5\x7d" }
          [] "x" (deriveEditValue "number" "7")).map
        (fun r =>
          { session := true, display := "7", host := r.1, anc := r.2.1 }) := by
  constructor
  · exact c2_edit_two_branch_commit.2.1 "number" "7" (.num 7) (by decide) rfl
  · exact c2_edit_two_branch_commit.2.2.2.1 "number" "5" "x"
      { session := true, display := "5",
        host := { input := some (.obj [("x", .num 5)]), text := "\x7b\"x\":5\x7d" },
        anc := [] } "7" rfl (by decide)

/-- C3: on drag end in an editable array-of-primitives container, the
dragged-row marker is cleared (`selected = none` in the result), the
container's new array value is recomputed from its direct rows in current DOM
order by `rowEffectiveValue` (nested node's value if the row wraps one, else
the trimmed text parsed as JSON with raw-text fallback), this array replaces
the owning node's value with its canonical serialization, and the
`(key, new full array)` pair is reported to the parent through
`handleChildUpdate` when a parent host and a truthy key exist. For `[1,2,3]`
editable, dragging the first row past the last (two `dragover` steps) and
dropping yields canonical form `[2,3,1]`. -/
theorem c3_dragend_recomputes_array :
    (∀ (sel : Option Row) (self parent : ElemState) (rest : List ElemState)
        (rows : List Row) (myKey : String),
        self.key = some myKey → myKey ≠ "" →
        dragEnd sel self (parent :: rest) rows =
          (handleChildUpdate parent rest myKey
              (.arr (rows.map rowEffectiveValue))).map
            (fun r =>
              ⟨none,
               { self with
                 input := some (.arr (rows.map rowEffectiveValue)),
                 text := jsonStringify (.arr (rows.map rowEffectiveValue)) },
               r.1 :: r.2.1, r.2.2⟩)) ∧
    (∀ (sel : Option Row) (self : ElemState) (rows : List Row),
        dragEnd sel self [] rows =
          some ⟨none,
            { self with
              input := some (.arr (rows.map rowEffectiveValue)),
              text := jsonStringify (.arr (rows.map rowEffectiveValue)) },
            [], false⟩) ∧
    dragOver (some 0) (dragOver (some 0) [0, 1, 2] 1) 2 = [1, 2, 0] ∧
    dragEnd (some (.prim "1"))
        { input := some (.arr [.num 1, .num 2, .num 3]), text := "[1,2,3]" } []
        [.prim "2", .prim "3", .prim "1"] =
      some ⟨none,
        { input := some (.arr [.num 2, .num 3, .num 1]), text := "[2,3,1]" },
        [], false⟩ := by
  refine ⟨?_, ?_, by decide, rfl⟩
  · intro sel self parent rest rows myKey hkey hne
    rw [dragEnd.eq_def]
    simp only [hkey, if_neg hne]
  · intro sel self rows
    rw [dragEnd.eq_def]

/-- Witness for C3: a keyed array node under a root parent reports its new
array upward on drop. -/
theorem c3_witness :
    dragEnd (some (.prim "1"))
        { input := some (.arr [.num 1, .num 2, .num 3]), text := "[1,2,3]",
          key := some "a" }
        [{ input := some (.obj [("a", .arr [.num 1, .num 2, .num 3])]), key := none }]
        [.prim "2", .prim "3", .prim "1"] =
      (handleChildUpdate
          { input := some (.obj [("a", .arr [.num 1, .num 2, .num 3])]), key := none }
          [] "a"
          (.arr ([Row.prim "2", .prim "3", .prim "1"].map rowEffectiveValue))).map
        (fun r =>
          ⟨none,
           { input := some (.arr ([Row.prim "2", .prim "3", .prim "1"].map rowEffectiveValue)),
             text := jsonStringify (.arr ([Row.prim "2", .prim "3", .prim "1"].map rowEffectiveValue)),
             key := some "a" },
           r.1 :: r.2.1, r.2.2⟩) :=
  c3_dragend_recomputes_array.1 (some (.prim "1"))
    { input := some (.arr [.num 1, .num 2, .num 3]), text := "[1,2,3]", key := some "a" }
    { input := some (.obj [("a", .arr [.num 1, .num 2, .num 3])]), key := none }
    [] [.prim "2", .prim "3", .prim "1"] "a" rfl (by decide)

example : jsonParse "\x7b\"x\":5\x7d" = some (.obj [("x", .num 5)]) := rfl
example : jsonParse "not json" = none := rfl
example : jsonParse "[1,2,3]" = some (.arr [.num 1, .num 2, .num 3]) := rfl
example : jsonStringify (.obj [("x", .num 7)]) = "\x7b\"x\":7\x7d" := rfl
example : jsonStringify (.arr [.num 2, .num 3, .num 1]) = "[2,3,1]" := rfl

example : isValidStringURL { input := some (.str "https://example.com/") } = true := rfl
example : isValidStringURL { input := some (.obj [("a", .str "https://example.com/")]) } = false := rfl
example : isValidStringURL { input := none } = false := rfl

example :
    handleChildUpdate
      { input := some (.obj [("b", .num 1)]), key := some "a" }
      [{ input := some (.obj [("a", .obj [("b", .num 1)])]), key := none }]
      "b" (.num 2) =
    some ({ input := some (.obj [("b", .num 2)]), text := "\x7b\"b\":2\x7d", key := some "a" },
          [{ input := some (.obj [("a", .obj [("b", .num 2)])]),
             text := "\x7b\"a\":\x7b\"b\":2\x7d\x7d", key := none }],
          true) := rfl

end XPreJson
